import Mathlib

/-!
Verification of the PRN template manager (`src/app.py`) against its
natural-language specification.

The development shallowly embeds the pure core of the Flask application:

* `stage_folder_name` — the stage normalizer (`app.py:57-70`);
* `extract_prn_columns_text` — placeholder extraction (`app.py:73-82`,
  the lexical part, applied to the file's text);
* `fill_prn_content` — template substitution (`app.py:269-277`),
  including the semantics of Python `re.sub` whose replacement argument
  is processed as a regex replacement template;
* the variable store and artifact registry operations
  (`save_fields`, `update_variable`, `delete_prn`, `upload_file`),
  with the SQLite tables embedded as Lean lists and the filesystem as an
  association list from paths to file contents.

External collaborators (the Labelary preview API, `os.remove` failures)
are modelled as explicit oracle parameters, matching the spec's view of
them as fallible boundaries.  Werkzeug's `secure_filename` and the
`normalize_product_folder_name` wrapper are third-party sanitizers
outside the repository's core; they are modelled as the identity on
already-sanitized names (all names used in theorems are fixed points of
the real sanitizer).  Strings are modelled over their character lists;
the ASCII fragment relevant to the spec's inputs is covered.
-/

namespace PrnApp

/-! ## Python string primitives -/

/-- Characters stripped by Python's `str.strip()` (ASCII whitespace). -/
def isPySpace (c : Char) : Bool :=
  c = ' ' || c = '\t' || c = '\n' || c = '\r' || c = Char.ofNat 11 || c = Char.ofNat 12

/-- Model of Python `str.strip()`. -/
def pyStrip (s : String) : String :=
  String.mk (((s.data.dropWhile isPySpace).reverse.dropWhile isPySpace).reverse)

/-- Model of Python `str.lower()` (ASCII case folding). -/
def pyLower (s : String) : String :=
  String.mk (s.data.map Char.toLower)

/-! ## Stage Normalizer (`app.py:57-70`) -/

/-- Alias list for `Raw` accepted by `stage_folder_name` (`app.py:61`). -/
def RAW_ALIASES : List String :=
  ["raw", "rawmaterial", "raw_material", "raw material"]

/-- Alias list for `SFG` accepted by `stage_folder_name` (`app.py:63`). -/
def SFG_ALIASES : List String :=
  ["sfg", "semi", "semi_finished", "semi_finished_good", "semi finished",
   "semi-finished", "semifinished"]

/-- Alias list for `FG` accepted by `stage_folder_name` (`app.py:65`). -/
def FG_ALIASES : List String :=
  ["fg", "finished", "finished_good", "finished good", "finished-good"]

/-- Model of `stage_folder_name` (`app.py:57-70`): empty input is invalid,
otherwise the stripped, lowercased input is looked up in the alias lists;
finally the canonical forms are accepted verbatim. -/
def stage_folder_name (stage_raw : String) : Option String :=
  if stage_raw = "" then none
  else if pyLower (pyStrip stage_raw) ∈ RAW_ALIASES then some "Raw"
  else if pyLower (pyStrip stage_raw) ∈ SFG_ALIASES then some "SFG"
  else if pyLower (pyStrip stage_raw) ∈ FG_ALIASES then some "FG"
  else if stage_raw ∈ ["Raw", "SFG", "FG"] then some stage_raw
  else none

/-- Modelled from the spec (§4.1): the documented acceptable inputs of the
normalizer — the nine documented aliases plus the three canonical forms.
Used only to compare the spec's alias table with the code's. -/
def specDocumentedStageInputs : List String :=
  ["raw", "raw material", "raw_material", "sfg", "semi finished", "semi-finished",
   "fg", "finished good", "finished-good", "Raw", "SFG", "FG"]

theorem raw_alias_not_sfg {s : String} (h : s ∈ RAW_ALIASES) : s ∉ SFG_ALIASES := by
  fin_cases h <;> decide

theorem raw_alias_not_fg {s : String} (h : s ∈ RAW_ALIASES) : s ∉ FG_ALIASES := by
  fin_cases h <;> decide

theorem sfg_alias_not_fg {s : String} (h : s ∈ SFG_ALIASES) : s ∉ FG_ALIASES := by
  fin_cases h <;> decide

/-- C2 (counterexample): the claim says every input outside the documented
alias set and the three canonical forms is rejected, but the code also
accepts the undocumented alias `"semi"`, mapping it to `SFG`. -/
theorem stage_folder_name_accepts_undocumented_input :
    stage_folder_name "semi" = some "SFG" ∧ "semi" ∉ specDocumentedStageInputs := by
  constructor
  · decide
  · decide

/-- C2 (amended): after stripping and ASCII lowercasing, the normalizer maps
exactly the code's alias lists (which extend the documented ones by
`rawmaterial`; `semi`, `semi_finished`, `semi_finished_good`, `semifinished`;
`finished`, `finished_good`) to the canonical stages, and every other input —
including the empty string — to the explicit invalid signal `none`, without
throwing (the function is total). -/
theorem stage_folder_name_characterization (input : String) :
    (stage_folder_name input = some "Raw" ↔ pyLower (pyStrip input) ∈ RAW_ALIASES)
    ∧ (stage_folder_name input = some "SFG" ↔ pyLower (pyStrip input) ∈ SFG_ALIASES)
    ∧ (stage_folder_name input = some "FG" ↔ pyLower (pyStrip input) ∈ FG_ALIASES)
    ∧ (stage_folder_name input = none ↔
        (pyLower (pyStrip input) ∉ RAW_ALIASES ∧ pyLower (pyStrip input) ∉ SFG_ALIASES
          ∧ pyLower (pyStrip input) ∉ FG_ALIASES)) := by
  unfold stage_folder_name
  split_ifs with h0 h1 h2 h3 h4
  · subst h0
    have hs : pyLower (pyStrip "") = "" := rfl
    rw [hs]
    refine ⟨?_, ?_, ?_, ?_⟩ <;> simp <;> decide
  · exact ⟨by simp [h1], by simp [raw_alias_not_sfg h1],
      by simp [raw_alias_not_fg h1], by simp [h1]⟩
  · exact ⟨by simp [h1], by simp [h2],
      by simp [sfg_alias_not_fg h2], by simp [h2]⟩
  · exact ⟨by simp [h1], by simp [h2], by simp [h3], by simp [h3]⟩
  · exfalso
    rcases List.mem_cons.mp h4 with h | h4
    · rw [h] at h1
      exact h1 (by decide)
    rcases List.mem_cons.mp h4 with h | h4
    · rw [h] at h2
      exact h2 (by decide)
    rcases List.mem_cons.mp h4 with h | h4
    · rw [h] at h3
      exact h3 (by decide)
    · exact absurd h4 (List.not_mem_nil input)
  · exact ⟨by simp [h1], by simp [h2], by simp [h3], by simp [h1, h2, h3]⟩

/-- C2 (witness): the characterization applied at the concrete inputs
`"raw material"`, `" SFG "` and `"bogus"`. -/
theorem stage_folder_name_characterization_witness :
    stage_folder_name "raw material" = some "Raw"
    ∧ stage_folder_name " SFG " = some "SFG"
    ∧ stage_folder_name "bogus" = none := by
  refine ⟨?_, ?_, ?_⟩
  · exact (stage_folder_name_characterization "raw material").1.mpr (by decide)
  · exact (stage_folder_name_characterization " SFG ").2.1.mpr (by decide)
  · exact (stage_folder_name_characterization "bogus").2.2.2.mpr (by decide)

/-! ## Placeholder Extractor (`app.py:73-82`) -/

/-- A character matched by `[A-Za-z0-9_]` in the placeholder regex. -/
def isWordChar (c : Char) : Bool :=
  c.isAlpha || c.isDigit || c = '_'

/-- Left-to-right scan for the tokens of the regex `\{[A-Za-z0-9_]+\}`
(`re.findall`, `app.py:80`): at each position a token starting there is
matched greedily and the scan resumes after it; on failure the scan advances
one character.  `skip` counts characters of an emitted token still to be
passed over (the scan is structural in the text). -/
def scanPH (skip : Nat) : List Char → List String
  | [] => []
  | c :: rest =>
    match skip with
    | n + 1 => scanPH n rest
    | 0 =>
      if c = '{' then
        match rest.dropWhile isWordChar with
        | '}' :: _ =>
          if (rest.takeWhile isWordChar).isEmpty then scanPH 0 rest
          else String.mk (rest.takeWhile isWordChar)
            :: scanPH ((rest.takeWhile isWordChar).length + 1) rest
        | _ => scanPH 0 rest
      else scanPH 0 rest

/-- Python string comparison on character lists: lexicographic by code
point.  This is the order `sorted` uses on `str` (`app.py:81`). -/
def charListLt : List Char → List Char → Bool
  | _, [] => false
  | [], _ :: _ => true
  | c :: cs, d :: ds =>
    if c.toNat < d.toNat then true
    else if d.toNat < c.toNat then false
    else charListLt cs ds

/-- Python `<` on strings. -/
def strLtb (a b : String) : Bool :=
  charListLt a.data b.data

/-- Insertion into a strictly ascending list, skipping duplicates. -/
def insertSorted (x : String) : List String → List String
  | [] => [x]
  | y :: ys =>
    if strLtb x y then x :: y :: ys
    else if x = y then y :: ys
    else y :: insertSorted x ys

/-- Model of Python `sorted(set(l))` (`app.py:81`): the strictly ascending
enumeration of the distinct elements of `l`. -/
def sortedUnique (l : List String) : List String :=
  l.foldr insertSorted []

/-- The lexical part of `extract_prn_columns` (`app.py:73-82`), applied to
the decoded text of the file: find all `{FIELD}` tokens, strip the braces,
deduplicate and sort. -/
def extract_prn_columns_text (text : String) : List String :=
  sortedUnique (scanPH 0 text.data)

theorem charListLt_irrefl (l : List Char) : charListLt l l = false := by
  induction l with
  | nil => rfl
  | cons c cs ih => simp [charListLt, ih]

theorem charListLt_asymm_eq :
    ∀ a b : List Char, charListLt a b = false → charListLt b a = false → a = b := by
  intro a
  induction a with
  | nil =>
    intro b hab _
    cases b with
    | nil => rfl
    | cons d ds => simp [charListLt] at hab
  | cons c cs ih =>
    intro b hab hba
    cases b with
    | nil => simp [charListLt] at hba
    | cons d ds =>
      simp only [charListLt] at hab hba
      by_cases hcd : c.toNat < d.toNat
      · simp [hcd] at hab
      · by_cases hdc : d.toNat < c.toNat
        · simp [hdc, Nat.not_lt_of_lt hdc] at hba
        · have hval : c.toNat = d.toNat := Nat.le_antisymm (Nat.le_of_not_lt hdc) (Nat.le_of_not_lt hcd)
          have hc : c = d := by
            have := congrArg Char.ofNat hval
            rwa [Char.ofNat_toNat, Char.ofNat_toNat] at this
          subst hc
          simp only [hcd, if_neg, ite_self] at hab hba
          exact congrArg (c :: ·) (ih ds hab hba)

theorem charListLt_trans :
    ∀ a b c : List Char, charListLt a b = true → charListLt b c = true →
      charListLt a c = true := by
  intro a
  induction a with
  | nil =>
    intro b c hab hbc
    cases b with
    | nil => simp [charListLt] at hab
    | cons d ds =>
      cases c with
      | nil => simp [charListLt] at hbc
      | cons e es => simp [charListLt]
  | cons x xs ih =>
    intro b c hab hbc
    cases b with
    | nil => simp [charListLt] at hab
    | cons y ys =>
      cases c with
      | nil => simp [charListLt] at hbc
      | cons z zs =>
        simp only [charListLt] at hab hbc ⊢
        by_cases hxy : x.toNat < y.toNat
        · by_cases hyz : y.toNat < z.toNat
          · simp [Nat.lt_trans hxy hyz, Nat.not_lt_of_lt (Nat.lt_trans hxy hyz)]
          · by_cases hzy : z.toNat < y.toNat
            · simp [hyz, hzy] at hbc
            · have : y.toNat = z.toNat := Nat.le_antisymm (Nat.le_of_not_lt hzy) (Nat.le_of_not_lt hyz)
              simp [this] at hxy ⊢
              simp [hxy, Nat.not_lt_of_lt hxy]
        · by_cases hyx : y.toNat < x.toNat
          · simp [hxy, hyx] at hab
          · have hv : x.toNat = y.toNat := Nat.le_antisymm (Nat.le_of_not_lt hyx) (Nat.le_of_not_lt hxy)
            simp only [hxy, if_neg, hyx, ite_self] at hab
            by_cases hyz : y.toNat < z.toNat
            · simp [hv, hyz]
            · by_cases hzy : z.toNat < y.toNat
              · simp [hyz, hzy] at hbc
              · have hv2 : y.toNat = z.toNat := Nat.le_antisymm (Nat.le_of_not_lt hzy) (Nat.le_of_not_lt hyz)
                simp only [hyz, if_neg, hzy, ite_self] at hbc
                have : ¬ x.toNat < z.toNat := by omega
                have h2 : ¬ z.toNat < x.toNat := by omega
                simp [this, h2]
                exact ih ys zs hab hbc

theorem strLtb_trans {a b c : String} (h1 : strLtb a b = true) (h2 : strLtb b c = true) :
    strLtb a c = true :=
  charListLt_trans a.data b.data c.data h1 h2

theorem strLtb_of_not_of_ne {a b : String} (h1 : strLtb a b = false) (h2 : a ≠ b) :
    strLtb b a = true := by
  by_cases h : strLtb b a = true
  · exact h
  · exfalso
    apply h2
    have h3 : charListLt b.data a.data = false := Bool.eq_false_iff.mpr (by simpa using h)
    exact congrArg String.mk (charListLt_asymm_eq a.data b.data h1 h3)

theorem mem_insertSorted {s x : String} :
    ∀ l : List String, s ∈ insertSorted x l ↔ s = x ∨ s ∈ l := by
  intro l
  induction l with
  | nil => simp [insertSorted]
  | cons y ys ih =>
    simp only [insertSorted]
    split_ifs with h1 h2
    · simp [List.mem_cons]
    · subst h2
      simp only [List.mem_cons]
      constructor
      · intro h
        exact Or.inr h
      · rintro (h | h)
        · exact Or.inl h
        · exact h
    · simp only [List.mem_cons, ih]
      tauto

theorem sorted_insertSorted {x : String} :
    ∀ l : List String, List.Sorted (fun a b => strLtb a b = true) l →
      List.Sorted (fun a b => strLtb a b = true) (insertSorted x l) := by
  intro l
  induction l with
  | nil =>
    intro _
    simp [insertSorted, List.Sorted]
  | cons y ys ih =>
    intro hs
    rw [List.sorted_cons] at hs
    obtain ⟨hy, hys⟩ := hs
    simp only [insertSorted]
    split_ifs with h1 h2
    · rw [List.sorted_cons]
      refine ⟨?_, by rw [List.sorted_cons]; exact ⟨hy, hys⟩⟩
      intro b hb
      rcases List.mem_cons.mp hb with rfl | hb
      · exact h1
      · exact strLtb_trans h1 (hy b hb)
    · rw [List.sorted_cons]
      exact ⟨hy, hys⟩
    · rw [List.sorted_cons]
      refine ⟨?_, ih hys⟩
      intro b hb
      rcases (mem_insertSorted ys).mp hb with rfl | hb
      · exact strLtb_of_not_of_ne (Bool.eq_false_iff.mpr h1) h2
      · exact hy b hb

theorem sorted_sortedUnique (l : List String) :
    List.Sorted (fun a b => strLtb a b = true) (sortedUnique l) := by
  induction l with
  | nil => simp [sortedUnique, List.Sorted]
  | cons x xs ih => exact sorted_insertSorted (sortedUnique xs) ih

theorem mem_sortedUnique {s : String} :
    ∀ l : List String, s ∈ sortedUnique l ↔ s ∈ l := by
  intro l
  induction l with
  | nil => simp [sortedUnique]
  | cons x xs ih =>
    simp only [sortedUnique, List.foldr_cons, List.mem_cons]
    rw [show List.foldr insertSorted [] xs = sortedUnique xs from rfl] at *
    rw [mem_insertSorted, ih]

theorem scanPH_tokens_wordlike {s : String} :
    ∀ (l : List Char) (skip : Nat), s ∈ scanPH skip l →
      s.data ≠ [] ∧ ∀ c ∈ s.data, isWordChar c = true := by
  intro l
  induction l with
  | nil =>
    intro skip h
    simp [scanPH] at h
  | cons c rest ih =>
    intro skip h
    cases skip with
    | succ n => exact ih n h
    | zero =>
      rw [scanPH] at h
      by_cases hc : c = '{'
      · rw [if_pos hc] at h
        revert h
        split
        · intro h
          split_ifs at h with hrun
          · exact ih 0 h
          · rcases List.mem_cons.mp h with rfl | h
            · refine ⟨by simpa [List.isEmpty_iff] using hrun, ?_⟩
              intro ch hch
              exact List.mem_takeWhile_imp hch
            · exact ih _ h
        · intro h
          exact ih 0 h
      · rw [if_neg hc] at h
        exact ih 0 h

/-- C7 (confirmed): extraction returns the names of the `{FIELD}` tokens
— nonempty words over `[A-Za-z0-9_]` — deduplicated and strictly sorted in
ascending code-point order; the documented examples hold, and a text with
no tokens yields the empty list. -/
theorem extract_prn_columns_text_spec :
    (∀ text : String, List.Sorted (fun a b => strLtb a b = true) (extract_prn_columns_text text))
    ∧ (∀ text : String, (extract_prn_columns_text text).Nodup)
    ∧ (∀ text s : String, s ∈ extract_prn_columns_text text ↔ s ∈ scanPH 0 text.data)
    ∧ (∀ text s : String, s ∈ extract_prn_columns_text text →
        s.data ≠ [] ∧ ∀ c ∈ s.data, isWordChar c = true)
    ∧ extract_prn_columns_text "A {X} B {Y} {X}" = ["X", "Y"]
    ∧ extract_prn_columns_text "just text, no tokens" = [] := by
  refine ⟨?_, ?_, ?_, ?_, by decide, by decide⟩
  · intro text
    exact sorted_sortedUnique _
  · intro text
    refine List.Pairwise.imp ?_ (sorted_sortedUnique (scanPH 0 text.data))
    intro a b hab
    intro heq
    subst heq
    rw [show strLtb a a = charListLt a.data a.data from rfl, charListLt_irrefl] at hab
    exact Bool.false_ne_true hab
  · intro text s
    exact mem_sortedUnique _
  · intro text s hs
    exact scanPH_tokens_wordlike _ _ ((mem_sortedUnique _).mp hs)

/-- C7 (witness): the token-shape component applied at the concrete text
`"A {X} B {Y} {X}"` and token `"X"`. -/
theorem extract_prn_columns_text_spec_witness :
    ("X" : String).data ≠ [] ∧ ∀ c ∈ ("X" : String).data, isWordChar c = true :=
  extract_prn_columns_text_spec.2.2.2.1 "A {X} B {Y} {X}" "X" (by decide)

/-! ## Template Substitution Engine (`app.py:269-277`)

`_fill_prn_content` substitutes each variable with
`re.sub(r"\{" + re.escape(k) + r"\}", v, content)`.  The pattern is the
literal token `{k}`; the replacement string `v`, however, is processed by
Python's regex replacement-template rules (`sre_parse.parse_template`):
`\n`, `\t`, … become control characters, `\g<0>` reinserts the whole match,
`\0oo` is an octal escape, numeric group references and unknown
ASCII-letter escapes raise an error, and `\` before another character is
kept literally.  Errors are modelled as `none`. -/

/-- The `ESCAPES` table of Python's replacement-template parser. -/
def templEscape (c : Char) : Option Char :=
  if c = 'a' then some (Char.ofNat 7)
  else if c = 'b' then some (Char.ofNat 8)
  else if c = 'f' then some (Char.ofNat 12)
  else if c = 'n' then some (Char.ofNat 10)
  else if c = 'r' then some (Char.ofNat 13)
  else if c = 't' then some (Char.ofNat 9)
  else if c = 'v' then some (Char.ofNat 11)
  else if c = '\\' then some '\\'
  else none

/-- Split a character list at the first `'>'`, returning the part before it
and the remainder after it. -/
def splitAtGt : List Char → Option (List Char × List Char)
  | [] => none
  | c :: rest =>
    if c = '>' then some ([], rest)
    else (splitAtGt rest).map fun pr => (c :: pr.1, pr.2)

/-- Octal digit test of the template parser. -/
def isOctC (c : Char) : Bool :=
  '0' ≤ c && c ≤ '7'

/-- Numeric value of a digit character. -/
def octV (c : Char) : Nat :=
  c.toNat - 48

/-- One escape step of the replacement-template parser, applied to the
characters following a backslash.  Returns the emitted characters and how
many input characters (after the backslash) were consumed, or `none` when
Python would raise (`bad escape` / `invalid group reference`).  `matched` is
the text of the regex match, reinserted by `\g<0>`; the patterns built by
`_fill_prn_content` contain no capture groups, so every positive group
reference is an error. -/
def templStep (matched : List Char) : List Char → Option (List Char × Nat)
  | [] => none
  | e :: rest2 =>
    if e = 'g' then
      match rest2 with
      | '<' :: rest3 =>
        match splitAtGt rest3 with
        | some (name, _) =>
          if name ≠ [] ∧ name.all Char.isDigit then
            if name.all (· = '0') then some (matched, name.length + 3)
            else none
          else none
        | none => none
      | _ => none
    else if e = '0' then
      match rest2 with
      | d1 :: d2 :: _ =>
        if isOctC d1 then
          if isOctC d2 then some ([Char.ofNat ((octV d1 * 8 + octV d2) % 256)], 3)
          else some ([Char.ofNat (octV d1)], 2)
        else some ([Char.ofNat 0], 1)
      | [d1] =>
        if isOctC d1 then some ([Char.ofNat (octV d1)], 2)
        else some ([Char.ofNat 0], 1)
      | [] => some ([Char.ofNat 0], 1)
    else if e.isDigit then
      match rest2 with
      | d2 :: d3 :: _ =>
        if d2.isDigit then
          if isOctC e && isOctC d2 && isOctC d3 then
            some ([Char.ofNat ((octV e * 64 + octV d2 * 8 + octV d3) % 256)], 3)
          else none
        else none
      | _ => none
    else
      match templEscape e with
      | some ch => some ([ch], 1)
      | none => if e.isAlpha then none else some (['\\', e], 1)

/-- Driver of the replacement-template parser: copies ordinary characters,
dispatches escapes to `templStep`, and skips the characters an escape
consumed. -/
def ptAux (matched : List Char) (skip : Nat) : List Char → Option (List Char)
  | [] => some []
  | c :: rest =>
    match skip with
    | n + 1 => ptAux matched n rest
    | 0 =>
      if c = '\\' then
        match templStep matched rest with
        | none => none
        | some (out, consumed) => (ptAux matched consumed rest).map (out ++ ·)
      else (ptAux matched 0 rest).map (c :: ·)

/-- Expansion of a replacement template `repl` for a match with text
`matched` (Python `re` template processing; `none` = raises). -/
def pyExpand (matched repl : String) : Option String :=
  (ptAux matched.data 0 repl.data).map String.mk

/-- Replacement of every non-overlapping occurrence of the literal pattern
`p :: ps`, scanning left to right and not rescanning the inserted
replacement — the behaviour of `re.sub` with a fully escaped pattern.
`skip` counts pattern characters still to be passed over after a match. -/
def substAux (p : Char) (ps repl : List Char) (skip : Nat) : List Char → List Char
  | [] => []
  | c :: rest =>
    match skip with
    | n + 1 => substAux p ps repl n rest
    | 0 =>
      if (p :: ps).isPrefixOf (c :: rest) then repl ++ substAux p ps repl ps.length rest
      else c :: substAux p ps repl 0 rest

/-- Replace all occurrences of the literal string `pat` in `s` by `repl`. -/
def pyReplaceAll (s pat repl : String) : String :=
  match pat.data with
  | [] => s
  | p :: ps => String.mk (substAux p ps repl.data 0 s.data)

/-- Coercion of a variable value to text: `str(v)` for a string value,
empty string for `None` (`app.py:275`). -/
def optStr : Option String → String
  | none => ""
  | some s => s

/-- Stable insertion by decreasing key length. -/
def insertByLen (x : String × Option String) :
    List (String × Option String) → List (String × Option String)
  | [] => [x]
  | y :: ys =>
    if y.1.length ≤ x.1.length then x :: y :: ys
    else y :: insertByLen x ys

/-- Model of `sorted(variables.keys(), key=lambda x: -len(x))`
(`app.py:274`): a stable sort of the variable bindings by decreasing name
length (Python's `sorted` is stable, so equal-length names keep their
insertion order). -/
def sortKeysDesc (vars : List (String × Option String)) : List (String × Option String) :=
  vars.foldr insertByLen []

/-- Model of `_fill_prn_content` (`app.py:269-277`): for each binding in
decreasing name-length order, `re.sub` the literal token `{k}` by the
template-expanded value; `none` models an exception escaping the loop. -/
def fill_prn_content (content : String) (vars : List (String × Option String)) :
    Option String :=
  (sortKeysDesc vars).foldl
    (fun acc kv =>
      match acc with
      | none => none
      | some text =>
        match pyExpand ("\x7b" ++ kv.1 ++ "\x7d") (optStr kv.2) with
        | none => none
        | some r => some (pyReplaceAll text ("\x7b" ++ kv.1 ++ "\x7d") r))
    (some content)

/-- Modelled from the spec (§4.4): the contract's literal substitution —
every exact occurrence of `{FIELD}` is replaced by the field's value
coerced to text (null as empty string), longest name first.  Used to
compare the spec's wording with the `re.sub`-based implementation. -/
def renderSpecLiteral (content : String) (vars : List (String × Option String)) : String :=
  (sortKeysDesc vars).foldl
    (fun acc kv => pyReplaceAll acc ("\x7b" ++ kv.1 ++ "\x7d") (optStr kv.2))
    content

theorem ptAux_no_backslash (m : List Char) :
    ∀ l : List Char, '\\' ∉ l → ptAux m 0 l = some l := by
  intro l
  induction l with
  | nil =>
    intro _
    rfl
  | cons c rest ih =>
    intro h
    have hc : ¬ c = '\\' := fun e => h (e ▸ List.mem_cons_self c rest)
    simp only [ptAux, if_neg hc, ih (fun hm => h (List.mem_cons_of_mem c hm)), Option.map_some']

theorem pyExpand_no_backslash (m v : String) (h : '\\' ∉ v.data) :
    pyExpand m v = some v := by
  unfold pyExpand
  rw [ptAux_no_backslash m.data v.data h]
  rfl

theorem mem_insertByLen {x s : String × Option String} :
    ∀ l, s ∈ insertByLen x l ↔ s = x ∨ s ∈ l := by
  intro l
  induction l with
  | nil => simp [insertByLen]
  | cons y ys ih =>
    simp only [insertByLen]
    split_ifs with h1
    · simp [List.mem_cons]
    · simp only [List.mem_cons, ih]
      tauto

theorem mem_sortKeysDesc {s : String × Option String} :
    ∀ vars, s ∈ sortKeysDesc vars ↔ s ∈ vars := by
  intro vars
  induction vars with
  | nil => simp [sortKeysDesc]
  | cons x xs ih =>
    simp only [sortKeysDesc, List.foldr_cons, List.mem_cons]
    rw [show List.foldr insertByLen [] xs = sortKeysDesc xs from rfl] at *
    rw [mem_insertByLen, ih]

theorem sorted_insertByLen {x : String × Option String} :
    ∀ l, List.Sorted (fun a b : String × Option String => b.1.length ≤ a.1.length) l →
      List.Sorted (fun a b : String × Option String => b.1.length ≤ a.1.length)
        (insertByLen x l) := by
  intro l
  induction l with
  | nil =>
    intro _
    simp [insertByLen, List.Sorted]
  | cons y ys ih =>
    intro hs
    rw [List.sorted_cons] at hs
    obtain ⟨hy, hys⟩ := hs
    simp only [insertByLen]
    split_ifs with h1
    · rw [List.sorted_cons]
      refine ⟨?_, by rw [List.sorted_cons]; exact ⟨hy, hys⟩⟩
      intro b hb
      rcases List.mem_cons.mp hb with rfl | hb
      · exact h1
      · exact Nat.le_trans (hy b hb) h1
    · rw [List.sorted_cons]
      refine ⟨?_, ih hys⟩
      intro b hb
      rcases (mem_insertByLen ys).mp hb with rfl | hb
      · exact Nat.le_of_lt (Nat.lt_of_not_le h1)
      · exact hy b hb

theorem fill_foldl_literal :
    ∀ (l : List (String × Option String)) (content : String),
      (∀ kv ∈ l, '\\' ∉ (optStr kv.2).data) →
      l.foldl
        (fun acc kv =>
          match acc with
          | none => none
          | some text =>
            match pyExpand ("\x7b" ++ kv.1 ++ "\x7d") (optStr kv.2) with
            | none => none
            | some r => some (pyReplaceAll text ("\x7b" ++ kv.1 ++ "\x7d") r))
        (some content)
      = some (l.foldl
          (fun acc kv => pyReplaceAll acc ("\x7b" ++ kv.1 ++ "\x7d") (optStr kv.2))
          content) := by
  intro l
  induction l with
  | nil =>
    intro content _
    rfl
  | cons kv rest ih =>
    intro content h
    rw [List.foldl_cons, List.foldl_cons]
    rw [pyExpand_no_backslash _ _ (h kv (List.mem_cons_self kv rest))]
    exact ih _ (fun kv' hkv' => h kv' (List.mem_cons_of_mem kv hkv'))

/-- C3 (counterexample): the claim states the value is inserted as text for
every field map, but `re.sub` interprets replacement-template escapes in the
value: the two-character value `\n` is inserted as a newline character. -/
theorem fill_prn_content_escape_counterexample :
    fill_prn_content "{A}" [("A", some "\\n")] = some "\n"
    ∧ ("\n" : String) ≠ "\\n" := by
  constructor
  · decide
  · decide

/-- C3 (amended): for every template and every field map whose values
contain no backslash, `_fill_prn_content` replaces every exact occurrence
of `{FIELD}` by the field's value coerced to text — null rendering as the
empty string, fields absent from the template being ignored, and unbound
placeholders kept literally — i.e. it agrees with the spec's literal
substitution; values containing backslashes are instead processed under
Python's replacement-template rules.  The documented examples hold. -/
theorem fill_prn_content_literal :
    (∀ (content : String) (vars : List (String × Option String)),
      (∀ kv ∈ vars, '\\' ∉ (optStr kv.2).data) →
      fill_prn_content content vars = some (renderSpecLiteral content vars))
    ∧ fill_prn_content "Hello {NAME}, qty {QTY}" [("NAME", some "Box"), ("QTY", some "5")]
        = some "Hello Box, qty 5"
    ∧ fill_prn_content "{NAME}" [] = some "{NAME}" := by
  refine ⟨?_, by decide, by decide⟩
  intro content vars h
  unfold fill_prn_content renderSpecLiteral
  exact fill_foldl_literal (sortKeysDesc vars) content
    (fun kv hkv => h kv ((mem_sortKeysDesc vars).mp hkv))

/-- C3 (witness): the amended equivalence applied at a concrete template
and backslash-free field map. -/
theorem fill_prn_content_literal_witness :
    fill_prn_content "x {A} y" [("A", some "1"), ("B", none)]
      = some (renderSpecLiteral "x {A} y" [("A", some "1"), ("B", none)]) :=
  fill_prn_content_literal.1 "x {A} y" [("A", some "1"), ("B", none)] (by decide)

/-- C4 (confirmed): substitution processes the bound fields in stable order
of decreasing name length, and on the documented example
`{"A":"1","AB":"2"}` applied to `"{AB}-{A}"` the result is `"2-1"` under
either association-list order. -/
theorem fill_prn_content_longest_first :
    (∀ vars : List (String × Option String),
      List.Sorted (fun a b : String × Option String => b.1.length ≤ a.1.length)
        (sortKeysDesc vars))
    ∧ fill_prn_content "{AB}-{A}" [("A", some "1"), ("AB", some "2")] = some "2-1"
    ∧ fill_prn_content "{AB}-{A}" [("AB", some "2"), ("A", some "1")] = some "2-1" := by
  refine ⟨?_, by decide, by decide⟩
  intro vars
  induction vars with
  | nil => simp [sortKeysDesc, List.Sorted]
  | cons x xs ih => exact sorted_insertByLen (sortKeysDesc xs) ih

/-- C10 (confirmed): substitution is applied sequentially over the
intermediate text: the value of the longer-named field `AB` contains the
token `{A}`, and the later substitution for `A` rewrites it, yielding
`"1"` rather than the literal `"{A}"`. -/
theorem fill_prn_content_sequential :
    fill_prn_content "{AB}" [("AB", some "{A}"), ("A", some "1")] = some "1"
    ∧ fill_prn_content "{AB}" [("A", some "1"), ("AB", some "{A}")] = some "1" := by
  constructor
  · decide
  · decide

/-! ## Persistent state

The SQLite tables (`app.py:123-169`) are embedded as Lean lists, with
`product_id` replaced by the product name (`products.product_name` is
`UNIQUE NOT NULL`, so the two are in bijection), and the uploads directory
as an association list from paths to file contents. -/

/-- One row of the `variables` table (`app.py:137-149`). -/
structure VarRec where
  product : String
  stage : String
  name : String
  value : Option String
deriving DecidableEq

/-- One row of the `product_prns` table (`app.py:151-165`). -/
structure PrnRec where
  product : String
  stage : String
  filename : String
  path : String
  preview : Option String
deriving DecidableEq

/-- The backing store. -/
structure Store where
  products : List String
  vars : List VarRec
  prns : List PrnRec
deriving DecidableEq

/-- The uploads filesystem: path to file content. -/
abbrev FS := List (String × String)

/-- Content stored at a path, if any. -/
def fsGet (fs : FS) (p : String) : Option String :=
  (fs.find? (fun e => e.1 == p)).map (fun e => e.2)

/-- Write (create or silently overwrite, like `file.save` / `open(..,"w")`). -/
def fsSet : FS → String → String → FS
  | [], p, c => [(p, c)]
  | (q, d) :: rest, p, c =>
    if q == p then (p, c) :: rest else (q, d) :: fsSet rest p c

/-- Remove a path (`os.remove`). -/
def fsRemove (fs : FS) (p : String) : FS :=
  fs.filter (fun e => e.1 != p)

/-- The unique key of the `variables` table (`UNIQUE(product_id, stage,
field_name)`). -/
def varKey (r : VarRec) (p st n : String) : Bool :=
  r.product == p && r.stage == st && r.name == n

/-! ## Variable Store: `save_fields` upsert (`app.py:424-433`) -/

/-- Update the value of the row the unique index finds for the key. -/
def updValueFirst (p st n : String) (v : Option String) : List VarRec → List VarRec
  | [] => []
  | r :: rs =>
    if varKey r p st n then { r with value := v } :: rs
    else r :: updValueFirst p st n v rs

/-- One `INSERT ... ON CONFLICT(product_id, stage, field_name) DO UPDATE
SET field_value = excluded.field_value` (`app.py:425-432`). -/
def upsertOne (p st n : String) (v : Option String) (vars : List VarRec) : List VarRec :=
  if vars.any (fun r => varKey r p st n) then updValueFirst p st n v vars
  else vars ++ [⟨p, st, n, v⟩]

/-- The upsert loop of `save_fields` (`app.py:424-433`), applied left to
right over the submitted field map. -/
def save_fields_upsert (p st : String) (fields : List (String × Option String))
    (vars : List VarRec) : List VarRec :=
  fields.foldl (fun acc kv => upsertOne p st kv.1 kv.2 acc) vars

/-- Number of rows with a given key. -/
def countKey (vars : List VarRec) (p st n : String) : Nat :=
  (vars.filter (fun r => varKey r p st n)).length

/-- Stored value for a key, if a row exists. -/
def getVal (vars : List VarRec) (p st n : String) : Option (Option String) :=
  (vars.find? (fun r => varKey r p st n)).map (fun r => r.value)

/-- The uniqueness invariant of the `variables` table: at most one row per
(product, stage, field_name). -/
def varsUnique (vars : List VarRec) : Prop :=
  ∀ p st n, countKey vars p st n ≤ 1

theorem varKey_set_value (r : VarRec) (v : Option String) (p st n : String) :
    varKey { r with value := v } p st n = varKey r p st n := rfl

theorem countKey_updValueFirst (p st n p' st' n' : String) (v : Option String) :
    ∀ vars : List VarRec,
      countKey (updValueFirst p st n v vars) p' st' n' = countKey vars p' st' n' := by
  intro vars
  induction vars with
  | nil => rfl
  | cons r rs ih =>
    simp only [updValueFirst]
    split_ifs with h
    · simp only [countKey, List.filter_cons, varKey_set_value]
      split <;> simp [countKey]
    · simp only [countKey, List.filter_cons] at ih ⊢
      split <;> simp [ih]

theorem countKey_nil_of_any_false {vars : List VarRec} {p st n : String}
    (h : vars.any (fun r => varKey r p st n) = false) :
    countKey vars p st n = 0 := by
  simp only [countKey, List.length_eq_zero]
  rw [List.filter_eq_nil_iff]
  intro r hr
  simpa using List.any_eq_false.mp h r hr

theorem countKey_pos_of_any_true {vars : List VarRec} {p st n : String}
    (h : vars.any (fun r => varKey r p st n) = true) :
    1 ≤ countKey vars p st n := by
  obtain ⟨r, hr, hkey⟩ := List.any_eq_true.mp h
  have : r ∈ vars.filter (fun r => varKey r p st n) := List.mem_filter.mpr ⟨hr, hkey⟩
  exact List.length_pos.mpr (List.ne_nil_of_mem this)

theorem countKey_append_single (vars : List VarRec) (r : VarRec) (p st n : String) :
    countKey (vars ++ [r]) p st n
      = countKey vars p st n + (if varKey r p st n then 1 else 0) := by
  unfold countKey
  rw [List.filter_append, List.length_append]
  congr 1
  by_cases h : varKey r p st n = true
  · simp [h]
  · simp [h]

theorem varsUnique_upsertOne (p st n : String) (v : Option String)
    {vars : List VarRec} (hu : varsUnique vars) :
    varsUnique (upsertOne p st n v vars) := by
  intro p' st' n'
  unfold upsertOne
  split_ifs with h
  · rw [countKey_updValueFirst]
    exact hu p' st' n'
  · rw [countKey_append_single]
    by_cases hk : varKey ⟨p, st, n, v⟩ p' st' n' = true
    · have hkey : (p = p' ∧ st = st') ∧ n = n' := by
        simpa [varKey] using hk
      obtain ⟨⟨rfl, rfl⟩, rfl⟩ := hkey
      rw [countKey_nil_of_any_false (Bool.eq_false_iff.mpr h), if_pos hk]
    · rw [if_neg hk]
      simpa using hu p' st' n'

theorem varsUnique_save_fields (p st : String) :
    ∀ (fields : List (String × Option String)) (vars : List VarRec),
      varsUnique vars → varsUnique (save_fields_upsert p st fields vars) := by
  intro fields
  induction fields with
  | nil =>
    intro vars hu
    exact hu
  | cons kv rest ih =>
    intro vars hu
    exact ih _ (varsUnique_upsertOne p st kv.1 kv.2 hu)

theorem getVal_updValueFirst (p st n : String) (v : Option String) :
    ∀ vars : List VarRec, vars.any (fun r => varKey r p st n) = true →
      getVal (updValueFirst p st n v vars) p st n = some v := by
  intro vars
  induction vars with
  | nil =>
    intro h
    simp at h
  | cons r rs ih =>
    intro h
    simp only [updValueFirst]
    split_ifs with hk
    · simp only [getVal, List.find?_cons, varKey_set_value, hk]
      rfl
    · simp only [getVal, List.find?_cons]
      rw [show (varKey r p st n) = false from Bool.eq_false_iff.mpr hk]
      have hrs : rs.any (fun r => varKey r p st n) = true := by
        rcases List.any_eq_true.mp h with ⟨r', hr', hk'⟩
        rcases List.mem_cons.mp hr' with rfl | hr'
        · exact absurd hk' hk
        · exact List.any_eq_true.mpr ⟨r', hr', hk'⟩
      exact ih hrs

theorem getVal_upsertOne (p st n : String) (v : Option String) (vars : List VarRec) :
    getVal (upsertOne p st n v vars) p st n = some v := by
  unfold upsertOne
  split_ifs with h
  · exact getVal_updValueFirst p st n v vars h
  · simp only [getVal, List.find?_append]
    rw [List.find?_eq_none.mpr (fun r hr => by simpa using List.any_eq_false.mp (Bool.eq_false_iff.mpr h) r hr)]
    simp [varKey]

theorem countKey_upsertOne_self (p st n : String) (v : Option String)
    {vars : List VarRec} (hu : varsUnique vars) :
    countKey (upsertOne p st n v vars) p st n = 1 := by
  unfold upsertOne
  split_ifs with h
  · rw [countKey_updValueFirst]
    exact Nat.le_antisymm (hu p st n) (countKey_pos_of_any_true h)
  · rw [countKey_append_single, countKey_nil_of_any_false (Bool.eq_false_iff.mpr h)]
    simp [varKey]

theorem any_of_countKey_one {vars : List VarRec} {p st n : String}
    (h : countKey vars p st n = 1) :
    vars.any (fun r => varKey r p st n) = true := by
  by_cases ha : vars.any (fun r => varKey r p st n) = true
  · exact ha
  · rw [countKey_nil_of_any_false (Bool.eq_false_iff.mpr ha)] at h
    cases h

/-- C5 (confirmed): the `save_fields` upsert is idempotent and never
duplicates — applying `{"A": "1"}` twice leaves exactly one row with value
`"1"` for the key, a subsequent `{"A": "2"}` overwrites that row in place
(still one row), and the uniqueness invariant — at most one value per
(product, stage, field_name) — is preserved by every upsert batch, so all
states reachable through upserts satisfy it. -/
theorem save_fields_upsert_spec :
    (∀ (p st : String) (fields : List (String × Option String)) (vars : List VarRec),
      varsUnique vars → varsUnique (save_fields_upsert p st fields vars))
    ∧ (∀ (vars : List VarRec) (p st : String), varsUnique vars →
        countKey (save_fields_upsert p st [("A", some "1")]
            (save_fields_upsert p st [("A", some "1")] vars)) p st "A" = 1
        ∧ getVal (save_fields_upsert p st [("A", some "1")]
            (save_fields_upsert p st [("A", some "1")] vars)) p st "A" = some (some "1")
        ∧ countKey (save_fields_upsert p st [("A", some "2")]
            (save_fields_upsert p st [("A", some "1")]
              (save_fields_upsert p st [("A", some "1")] vars))) p st "A" = 1
        ∧ getVal (save_fields_upsert p st [("A", some "2")]
            (save_fields_upsert p st [("A", some "1")]
              (save_fields_upsert p st [("A", some "1")] vars))) p st "A"
            = some (some "2")) := by
  constructor
  · intro p st fields vars hu
    exact varsUnique_save_fields p st fields vars hu
  · intro vars p st hu
    have h1 : varsUnique (save_fields_upsert p st [("A", some "1")] vars) :=
      varsUnique_save_fields p st [("A", some "1")] vars hu
    have h2 : varsUnique (save_fields_upsert p st [("A", some "1")]
        (save_fields_upsert p st [("A", some "1")] vars)) :=
      varsUnique_save_fields p st [("A", some "1")] _ h1
    refine ⟨countKey_upsertOne_self p st "A" (some "1") h1, getVal_upsertOne p st "A" (some "1") _, countKey_upsertOne_self p st "A" (some "2") h2, getVal_upsertOne p st "A" (some "2") _⟩

/-- C5 (witness): the scenario applied to the empty store. -/
theorem save_fields_upsert_spec_witness :
    countKey (save_fields_upsert "P" "Raw" [("A", some "1")]
        (save_fields_upsert "P" "Raw" [("A", some "1")] [])) "P" "Raw" "A" = 1
    ∧ getVal (save_fields_upsert "P" "Raw" [("A", some "1")]
        (save_fields_upsert "P" "Raw" [("A", some "1")] [])) "P" "Raw" "A"
        = some (some "1")
    ∧ countKey (save_fields_upsert "P" "Raw" [("A", some "2")]
        (save_fields_upsert "P" "Raw" [("A", some "1")]
          (save_fields_upsert "P" "Raw" [("A", some "1")] []))) "P" "Raw" "A" = 1
    ∧ getVal (save_fields_upsert "P" "Raw" [("A", some "2")]
        (save_fields_upsert "P" "Raw" [("A", some "1")]
          (save_fields_upsert "P" "Raw" [("A", some "1")] []))) "P" "Raw" "A"
        = some (some "2") :=
  save_fields_upsert_spec.2 [] "P" "Raw" (fun _ _ _ => Nat.zero_le 1)

/-! ## Variable Store: `update_variable` (`app.py:657-709`) -/

/-- Result statuses of the `update-variable` endpoint. -/
inductive VarUpdResult where
  | ok
  | badStage
  | productNotFound
  | varNotFound
  | conflict
deriving DecidableEq

/-- Apply the two `UPDATE ... WHERE id = var_id` statements
(`app.py:698-702`) to the row found for the old name: the name is set to
`new_name` (a no-op when it is unchanged), and the value is set only when a
new value was supplied. -/
def updFirstVar (p st old new_name : String) (new_value : Option String) :
    List VarRec → List VarRec
  | [] => []
  | r :: rs =>
    if varKey r p st old then
      { r with name := new_name,
               value := match new_value with | some v => some v | none => r.value } :: rs
    else r :: updFirstVar p st old new_name new_value rs

/-- Model of `update_variable` (`app.py:657-709`; the optional
filled-PRN generation after the response is assembled is not part of the
rename semantics and is omitted): normalize the stage, look up the product
and the old variable, reject a rename whose target name already exists for
the same (product, stage) before any mutation, and otherwise update the
found row. -/
def update_variable (store : Store) (product_raw stage_raw old_raw newname_raw : String)
    (new_value : Option String) : VarUpdResult × Store :=
  match stage_folder_name stage_raw with
  | none => (VarUpdResult.badStage, store)
  | some st =>
    if store.products.contains (pyStrip product_raw) then
      match store.vars.find? (fun r => varKey r (pyStrip product_raw) st (pyStrip old_raw)) with
      | none => (VarUpdResult.varNotFound, store)
      | some _ =>
        if pyStrip newname_raw ≠ pyStrip old_raw
            ∧ (store.vars.find? (fun r =>
                varKey r (pyStrip product_raw) st (pyStrip newname_raw))).isSome then
          (VarUpdResult.conflict, store)
        else
          (VarUpdResult.ok,
            { store with
                vars := updFirstVar (pyStrip product_raw) st (pyStrip old_raw)
                  (pyStrip newname_raw) new_value store.vars })
    else (VarUpdResult.productNotFound, store)

/-- C6 (confirmed): whenever variables named `A` and `B` both exist for the
same (product, stage), renaming `A` to `B` returns the conflict status and
returns the store completely unchanged — the collision check happens
strictly before any mutation, so both records keep their names and
values. -/
theorem update_variable_conflict :
    ∀ (store : Store) (product_raw stage_raw st : String) (nv : Option String),
      stage_folder_name stage_raw = some st →
      store.products.contains (pyStrip product_raw) = true →
      store.vars.any (fun r => varKey r (pyStrip product_raw) st "A") = true →
      store.vars.any (fun r => varKey r (pyStrip product_raw) st "B") = true →
      update_variable store product_raw stage_raw "A" "B" nv
        = (VarUpdResult.conflict, store) := by
  intro store product_raw stage_raw st nv hstage hprod hA hB
  have hfindA : (store.vars.find? (fun r =>
      varKey r (pyStrip product_raw) st (pyStrip "A"))).isSome := by
    rw [show pyStrip "A" = "A" from rfl]
    obtain ⟨rA, hrA, hkA⟩ := List.any_eq_true.mp hA
    exact List.find?_isSome.mpr ⟨rA, hrA, hkA⟩
  obtain ⟨vA, hvA⟩ := Option.isSome_iff_exists.mp hfindA
  have hfindB : (store.vars.find? (fun r =>
      varKey r (pyStrip product_raw) st (pyStrip "B"))).isSome := by
    rw [show pyStrip "B" = "B" from rfl]
    obtain ⟨rB, hrB, hkB⟩ := List.any_eq_true.mp hB
    exact List.find?_isSome.mpr ⟨rB, hrB, hkB⟩
  have hne : pyStrip "B" ≠ pyStrip "A" := by decide
  have hmem : pyStrip product_raw ∈ store.products := by simpa using hprod
  simp [update_variable, hstage, hprod, hmem, hvA, hfindB, hne]

/-- C6 (witness): the conflict at a concrete store holding variables `A`
and `B` for `("P", Raw)`. -/
theorem update_variable_conflict_witness :
    update_variable
        ⟨["P"], [⟨"P", "Raw", "A", some "1"⟩, ⟨"P", "Raw", "B", some "2"⟩], []⟩
        "P" "Raw" "A" "B" (some "9")
      = (VarUpdResult.conflict,
          ⟨["P"], [⟨"P", "Raw", "A", some "1"⟩, ⟨"P", "Raw", "B", some "2"⟩], []⟩) :=
  update_variable_conflict
    ⟨["P"], [⟨"P", "Raw", "A", some "1"⟩, ⟨"P", "Raw", "B", some "2"⟩], []⟩
    "P" "Raw" "Raw" (some "9") (by decide) (by decide) (by decide) (by decide)

/-! ## Artifact Registry: `delete_prn` (`app.py:910-958`) -/

/-- The unique key of the `product_prns` table (`UNIQUE(product_id, stage,
prn_filename)`). -/
def prnKey (r : PrnRec) (p st f : String) : Bool :=
  r.product == p && r.stage == st && r.filename == f

/-- Result statuses of the `delete-prn` endpoint. -/
inductive DelResult where
  | ok
  | badStage
  | notFound
deriving DecidableEq

/-- `DELETE FROM product_prns WHERE id = prn_id` for the id of the first
row found for the key (`app.py:938-946`). -/
def removeFirstPrn (p st f : String) : List PrnRec → List PrnRec
  | [] => []
  | r :: rs => if prnKey r p st f then rs else r :: removeFirstPrn p st f rs

/-- Number of registry rows with a given key. -/
def countPrn (prns : List PrnRec) (p st f : String) : Nat :=
  (prns.filter (fun r => prnKey r p st f)).length

/-- Best-effort removal of the preview file (`app.py:953-954`): skipped when
the record has no preview path, the path is empty or the file does not
exist; a raising `os.remove` (oracle `removeOk` false) leaves the file in
place. -/
def removePreviewFile (fs : FS) (preview : Option String) (removeOk : String → Bool) : FS :=
  match preview with
  | none => fs
  | some pv =>
    if pv ≠ "" ∧ (fsGet fs pv).isSome then
      if removeOk pv then fsRemove fs pv else fs
    else fs

/-- The best-effort file-removal block of `delete_prn` (`app.py:949-956`):
remove the template file, then the preview file; an exception from the
first removal aborts the block (so the preview file is kept), and every
exception is swallowed. -/
def tryRemoveFiles (fs : FS) (path : String) (preview : Option String)
    (removeOk : String → Bool) : FS :=
  if path ≠ "" ∧ (fsGet fs path).isSome then
    if removeOk path then removePreviewFile (fsRemove fs path) preview removeOk
    else fs
  else removePreviewFile fs preview removeOk

/-- Model of `delete_prn` (`app.py:910-958`): normalize the stage, look up
the product and the record; on success delete the registry row, commit, and
only then best-effort remove the files. -/
def delete_prn (store : Store) (fs : FS) (product_raw stage_raw prn_filename : String)
    (removeOk : String → Bool) : DelResult × Store × FS :=
  match stage_folder_name stage_raw with
  | none => (DelResult.badStage, store, fs)
  | some st =>
    if store.products.contains (pyStrip product_raw) then
      match store.prns.find? (fun r => prnKey r (pyStrip product_raw) st prn_filename) with
      | none => (DelResult.notFound, store, fs)
      | some r =>
        (DelResult.ok,
          { store with
              prns := removeFirstPrn (pyStrip product_raw) st prn_filename store.prns },
          tryRemoveFiles fs r.path r.preview removeOk)
    else (DelResult.notFound, store, fs)

theorem countPrn_removeFirst (p st f : String) :
    ∀ l : List PrnRec, (l.find? (fun r => prnKey r p st f)).isSome →
      countPrn (removeFirstPrn p st f l) p st f = countPrn l p st f - 1 := by
  intro l
  induction l with
  | nil =>
    intro h
    simp [List.find?] at h
  | cons r rs ih =>
    intro h
    by_cases hk : prnKey r p st f = true
    · simp [removeFirstPrn, hk, countPrn, List.filter_cons]
    · have hkf : prnKey r p st f = false := Bool.eq_false_iff.mpr hk
      have hrs : (rs.find? (fun r => prnKey r p st f)).isSome := by
        rw [List.find?_cons] at h
        rwa [hkf] at h
      simp [removeFirstPrn, hkf, countPrn, List.filter_cons]
      exact ih hrs

/-- C9 (confirmed): `delete_prn` removes the registry record and only then
attempts file removal, which is strictly best-effort: for every removal
oracle — including one on which every `os.remove` raises — the result is
ok and the resulting registry is the same, with exactly one record for the
key removed; an unknown product or an unknown artifact yields not-found
with the store and the filesystem completely unchanged. -/
theorem delete_prn_spec :
    (∀ (store : Store) (fs : FS) (praw sraw st fname : String)
        (removeOk : String → Bool) (r : PrnRec),
      stage_folder_name sraw = some st →
      store.products.contains (pyStrip praw) = true →
      store.prns.find? (fun rec => prnKey rec (pyStrip praw) st fname) = some r →
      (delete_prn store fs praw sraw fname removeOk).1 = DelResult.ok
      ∧ (delete_prn store fs praw sraw fname removeOk).2.1
          = { store with prns := removeFirstPrn (pyStrip praw) st fname store.prns }
      ∧ countPrn (delete_prn store fs praw sraw fname removeOk).2.1.prns
            (pyStrip praw) st fname
          = countPrn store.prns (pyStrip praw) st fname - 1
      ∧ (delete_prn store fs praw sraw fname removeOk).2.1
          = (delete_prn store fs praw sraw fname (fun _ => false)).2.1)
    ∧ (∀ (store : Store) (fs : FS) (praw sraw st fname : String)
        (removeOk : String → Bool),
      stage_folder_name sraw = some st →
      store.products.contains (pyStrip praw) = false →
      delete_prn store fs praw sraw fname removeOk = (DelResult.notFound, store, fs))
    ∧ (∀ (store : Store) (fs : FS) (praw sraw st fname : String)
        (removeOk : String → Bool),
      stage_folder_name sraw = some st →
      store.products.contains (pyStrip praw) = true →
      store.prns.find? (fun rec => prnKey rec (pyStrip praw) st fname) = none →
      delete_prn store fs praw sraw fname removeOk = (DelResult.notFound, store, fs)) := by
  refine ⟨?_, ?_, ?_⟩
  · intro store fs praw sraw st fname removeOk r hstage hprod hfind
    have hmem : pyStrip praw ∈ store.products := by simpa using hprod
    refine ⟨?_, ?_, ?_, ?_⟩
    · simp [delete_prn, hstage, hmem, hfind]
    · simp [delete_prn, hstage, hmem, hfind]
    · simp [delete_prn, hstage, hmem, hfind]
      exact countPrn_removeFirst (pyStrip praw) st fname store.prns (by rw [hfind]; rfl)
    · simp [delete_prn, hstage, hmem, hfind]
  · intro store fs praw sraw st fname removeOk hstage hprod
    have hmem : pyStrip praw ∉ store.products := by simpa using hprod
    simp [delete_prn, hstage, hmem]
  · intro store fs praw sraw st fname removeOk hstage hprod hfind
    have hmem : pyStrip praw ∈ store.products := by simpa using hprod
    simp [delete_prn, hstage, hmem, hfind]

/-- C9 (witness): the success case applied at a concrete store with one
artifact, under an oracle on which every file removal fails. -/
theorem delete_prn_spec_witness :
    (delete_prn
        ⟨["P"], [], [⟨"P", "Raw", "a.prn", "uploads/P/Raw/a.prn", some "uploads/P/Raw/a.png"⟩]⟩
        [("uploads/P/Raw/a.prn", "c"), ("uploads/P/Raw/a.png", "img")]
        "P" "Raw" "a.prn" (fun _ => false)).1 = DelResult.ok
    ∧ (delete_prn
        ⟨["P"], [], [⟨"P", "Raw", "a.prn", "uploads/P/Raw/a.prn", some "uploads/P/Raw/a.png"⟩]⟩
        [("uploads/P/Raw/a.prn", "c"), ("uploads/P/Raw/a.png", "img")]
        "P" "Raw" "a.prn" (fun _ => false)).2.1
      = { products := ["P"], vars := [],
          prns := removeFirstPrn (pyStrip "P") "Raw" "a.prn"
            [⟨"P", "Raw", "a.prn", "uploads/P/Raw/a.prn", some "uploads/P/Raw/a.png"⟩] } := by
  have h := delete_prn_spec.1
    ⟨["P"], [], [⟨"P", "Raw", "a.prn", "uploads/P/Raw/a.prn", some "uploads/P/Raw/a.png"⟩]⟩
    [("uploads/P/Raw/a.prn", "c"), ("uploads/P/Raw/a.png", "img")]
    "P" "Raw" "Raw" "a.prn" (fun _ => false)
    ⟨"P", "Raw", "a.prn", "uploads/P/Raw/a.prn", some "uploads/P/Raw/a.png"⟩
    (by decide) (by decide) (by decide)
  exact ⟨h.1, h.2.1⟩

/-! ## Artifact Registry: `upload_file` (`app.py:280-380`) -/

/-- Index of the last `'.'` in a character list, if any (`i` is the index
of the list's head in the original string). -/
def lastDotIdxAux : List Char → Nat → Option Nat
  | [], _ => none
  | c :: rest, i =>
    match lastDotIdxAux rest (i + 1) with
    | some j => some j
    | none => if c = '.' then some i else none

/-- `os.path.splitext` for a plain filename: split before the last dot,
unless every character before that dot is itself a dot. -/
def splitext (f : String) : String × String :=
  match lastDotIdxAux f.data 0 with
  | none => (f, "")
  | some i =>
    if (f.data.take i).any (fun c => c != '.') then
      (String.mk (f.data.take i), String.mk (f.data.drop i))
    else (f, "")

/-- Characters after the last dot (`filename.rsplit(".", 1)[1]` when a dot
is present). -/
def afterLastDot (cs : List Char) : List Char :=
  match lastDotIdxAux cs 0 with
  | none => cs
  | some i => cs.drop (i + 1)

/-- Model of `allowed_file` (`app.py:45-46`). -/
def allowed_file (filename : String) : Bool :=
  filename.data.contains '.'
    && (pyLower (String.mk (afterLastDot filename.data)) == "prn")

/-- Model of `normalize_product_folder_name` (`app.py:85-91`): it applies
werkzeug's `secure_filename`, an external sanitizer; modelled as the
identity on already-sanitized names. -/
def normalize_product_folder_name (p : String) : String := p

/-- `os.path.join` with a single separator. -/
def pjoin (a b : String) : String := a ++ "/" ++ b

/-- The collision-disambiguated filename
`f"{base}_{int(datetime.utcnow().timestamp())}{ext}"` (`app.py:324-325`);
the wall-clock timestamp is the parameter `ts`. -/
def disambigName (f : String) (ts : Nat) : String :=
  (splitext f).1 ++ "_" ++ toString ts ++ (splitext f).2

/-- Outcome of the `/upload` endpoint. -/
inductive UploadOutcome where
  | ok (filename : String) (fields : List String) (preview_url : Option String)
  | err (code : Nat) (msg : String)
deriving DecidableEq

/-- Result of an upload: HTTP outcome, resulting store and filesystem, and
the number of times the preview pipeline was invoked. -/
structure UploadRes where
  outcome : UploadOutcome
  store : Store
  fs : FS
  previewAttempts : Nat
deriving DecidableEq

/-- The preview link returned by the API (`app.py:378`). -/
def previewUrl (p st f : String) : String :=
  "/preview/" ++ p ++ "/" ++ st ++ "/" ++ f

/-- `UPDATE product_prns SET preview_path = ? WHERE product_id = ? AND
stage = ? AND prn_filename = ?` (`app.py:361-364`). -/
def setPrnPreview (prns : List PrnRec) (p st f pv : String) : List PrnRec :=
  prns.map (fun r => if prnKey r p st f then { r with preview := some pv } else r)

/-- Model of `upload_file` (`app.py:280-380`): validate the product name,
stage and filename; if a file with the requested name already exists on
disk, rename with a timestamp suffix; save the file (silently overwriting
whatever is at the save path); extract the placeholder fields; ensure the
product row; insert the artifact row (a duplicate key aborts with 409,
after the file was already saved); then call the preview pipeline once,
best-effort.  `previewImg` is the pipeline's outcome oracle (`none` =
failure, error status or timeout, as `generate_preview`, `app.py:94-113`,
catches every exception and returns `False`). -/
def upload_file (store : Store) (fs : FS) (product_raw stage_raw orig_name content : String)
    (ts : Nat) (previewImg : Option String) : UploadRes :=
  if pyStrip product_raw = "" then
    ⟨UploadOutcome.err 400 "product_name required", store, fs, 0⟩
  else
    match stage_folder_name (pyStrip stage_raw) with
    | none =>
      ⟨UploadOutcome.err 400 "invalid or missing stage; allowed: Raw, SFG, FG", store, fs, 0⟩
    | some st =>
      if orig_name = "" then ⟨UploadOutcome.err 400 "no selected file", store, fs, 0⟩
      else if allowed_file orig_name = false then
        ⟨UploadOutcome.err 400 "only .prn files allowed", store, fs, 0⟩
      else
        let pname := pyStrip product_raw
        let dir := pjoin (pjoin "uploads" (normalize_product_folder_name pname)) st
        let filename :=
          if (fsGet fs (pjoin dir orig_name)).isSome then disambigName orig_name ts
          else orig_name
        let savePath := pjoin dir filename
        let fs1 := fsSet fs savePath content
        let fields := extract_prn_columns_text content
        let store1 : Store :=
          { store with
              products :=
                if store.products.contains pname then store.products
                else store.products ++ [pname] }
        if store1.prns.any (fun r => prnKey r pname st filename) then
          ⟨UploadOutcome.err 409 "PRN registration failed (possible duplicate)", store1, fs1, 0⟩
        else
          let store2 : Store :=
            { store1 with prns := store1.prns ++ [⟨pname, st, filename, savePath, none⟩] }
          let pvPath := pjoin dir ((splitext filename).1 ++ ".png")
          match previewImg with
          | some img =>
            let fs2 := fsSet fs1 pvPath img
            let store3 : Store :=
              { store2 with prns := setPrnPreview store2.prns pname st filename pvPath }
            ⟨UploadOutcome.ok filename fields
              (if (fsGet fs2 pvPath).isSome then some (previewUrl pname st filename) else none),
              store3, fs2, 1⟩
          | none =>
            ⟨UploadOutcome.ok filename fields
              (if (fsGet fs1 pvPath).isSome then some (previewUrl pname st filename) else none),
              store2, fs1, 1⟩

theorem string_mk_append (a b : List Char) :
    String.mk a ++ String.mk b = String.mk (a ++ b) := by
  apply String.ext
  simp

theorem splitext_append (f : String) :
    (splitext f).1 ++ (splitext f).2 = f := by
  unfold splitext
  cases h : lastDotIdxAux f.data 0 with
  | none =>
    apply String.ext
    simp
  | some i =>
    dsimp only
    split_ifs with hany
    · apply String.ext
      simp
    · apply String.ext
      simp

theorem length_disambigName (f : String) (ts : Nat) :
    (disambigName f ts).length = f.length + 1 + (toString ts).length := by
  have h := congrArg String.length (splitext_append f)
  rw [String.length_append] at h
  unfold disambigName
  rw [String.length_append, String.length_append, String.length_append]
  have h1 : ("_" : String).length = 1 := rfl
  omega

theorem disambigName_ne (f : String) (ts : Nat) : disambigName f ts ≠ f := by
  intro h
  have := congrArg String.length h
  rw [length_disambigName] at this
  omega

theorem string_append_cancel_left {a b c : String} (h : a ++ b = a ++ c) : b = c := by
  apply String.ext
  have := congrArg String.data h
  simp only [String.data_append] at this
  exact List.append_cancel_left this

theorem pjoin_ne_of_ne {d a b : String} (h : a ≠ b) : pjoin d a ≠ pjoin d b := by
  intro he
  exact h (string_append_cancel_left he)

theorem fsGet_fsSet_same (p c : String) :
    ∀ fs : FS, fsGet (fsSet fs p c) p = some c := by
  intro fs
  induction fs with
  | nil => simp [fsSet, fsGet, List.find?]
  | cons e rest ih =>
    obtain ⟨q, d⟩ := e
    simp only [fsSet]
    split_ifs with h
    · simp [fsGet, List.find?]
    · simp only [fsGet, List.find?_cons]
      rw [show (q == p) = false from by simpa using h]
      exact ih

theorem fsGet_fsSet_ne {p q : String} (c : String) (h : p ≠ q) :
    ∀ fs : FS, fsGet (fsSet fs q c) p = fsGet fs p := by
  intro fs
  induction fs with
  | nil =>
    simp only [fsSet, fsGet, List.find?]
    rw [show (q == p) = false from by simpa using (Ne.symm h)]
  | cons e rest ih =>
    obtain ⟨x, d⟩ := e
    simp only [fsSet]
    split_ifs with hx
    · have hxq : x = q := by simpa using hx
      subst hxq
      simp only [fsGet, List.find?_cons]
      rw [show (x == p) = false from by simpa using (Ne.symm h)]
    · simp only [fsGet, List.find?_cons]
      cases hxp : (x == p) with
      | true => rfl
      | false => exact ih

/-- C1 (counterexample): the claim fails when the timestamp-disambiguated
name itself already belongs to an artifact: uploading `a.prn` again at
timestamp 123 while `a.prn` and `a_123.prn` both exist renames the
newcomer to `a_123.prn`, silently overwrites that existing artifact's
stored content on disk, and then fails the registration with 409 — not two
distinct records, and an existing artifact's content is lost. -/
theorem upload_file_collision_counterexample :
    (upload_file
        ⟨["P"], [],
          [⟨"P", "Raw", "a.prn", "uploads/P/Raw/a.prn", none⟩,
           ⟨"P", "Raw", "a_123.prn", "uploads/P/Raw/a_123.prn", none⟩]⟩
        [("uploads/P/Raw/a.prn", "ORIG"), ("uploads/P/Raw/a_123.prn", "RENAMED")]
        "P" "Raw" "a.prn" "NEW" 123 none).outcome
      = UploadOutcome.err 409 "PRN registration failed (possible duplicate)"
    ∧ (upload_file
        ⟨["P"], [],
          [⟨"P", "Raw", "a.prn", "uploads/P/Raw/a.prn", none⟩,
           ⟨"P", "Raw", "a_123.prn", "uploads/P/Raw/a_123.prn", none⟩]⟩
        [("uploads/P/Raw/a.prn", "ORIG"), ("uploads/P/Raw/a_123.prn", "RENAMED")]
        "P" "Raw" "a.prn" "NEW" 123 none).store.prns
      = [⟨"P", "Raw", "a.prn", "uploads/P/Raw/a.prn", none⟩,
         ⟨"P", "Raw", "a_123.prn", "uploads/P/Raw/a_123.prn", none⟩]
    ∧ fsGet (upload_file
        ⟨["P"], [],
          [⟨"P", "Raw", "a.prn", "uploads/P/Raw/a.prn", none⟩,
           ⟨"P", "Raw", "a_123.prn", "uploads/P/Raw/a_123.prn", none⟩]⟩
        [("uploads/P/Raw/a.prn", "ORIG"), ("uploads/P/Raw/a_123.prn", "RENAMED")]
        "P" "Raw" "a.prn" "NEW" 123 none).fs "uploads/P/Raw/a_123.prn"
      = some "NEW"
    ∧ ("NEW" : String) ≠ "RENAMED" := by
  refine ⟨by decide, by decide, by decide, by decide⟩

/-- Filename carried by a successful upload outcome. -/
def outcomeFilename : UploadOutcome → Option String
  | UploadOutcome.ok f _ _ => some f
  | UploadOutcome.err _ _ => none

/-- Extracted fields carried by a successful upload outcome. -/
def outcomeFields : UploadOutcome → Option (List String)
  | UploadOutcome.ok _ flds _ => some flds
  | UploadOutcome.err _ _ => none

/-- C1 (amended): when a template is registered under a filename that
collides with an existing artifact of the same (product, stage) — record
present and file on disk — and the timestamp-disambiguated name is fresh
(no record and no file), the upload succeeds with the newcomer renamed by
the appended suffix, the registry afterwards holds both the original
record and the new one (distinct filenames), the original's stored content
is unchanged, and no path other than the fresh disambiguated one is
written; when the disambiguated name is not fresh the upload instead fails
with a conflict after overwriting that file (see the counterexample). -/
theorem upload_file_collision_renames :
    ∀ (store : Store) (fs : FS) (praw sraw st fname content : String) (ts : Nat)
      (c0 : String) (r0 : PrnRec),
      pyStrip praw ≠ "" →
      stage_folder_name (pyStrip sraw) = some st →
      fname ≠ "" →
      allowed_file fname = true →
      r0 ∈ store.prns →
      r0.filename = fname →
      fsGet fs (pjoin (pjoin (pjoin "uploads"
          (normalize_product_folder_name (pyStrip praw))) st) fname) = some c0 →
      store.prns.any (fun r => prnKey r (pyStrip praw) st (disambigName fname ts)) = false →
      fsGet fs (pjoin (pjoin (pjoin "uploads"
          (normalize_product_folder_name (pyStrip praw))) st) (disambigName fname ts)) = none →
      outcomeFilename (upload_file store fs praw sraw fname content ts none).outcome
          = some (disambigName fname ts)
      ∧ outcomeFields (upload_file store fs praw sraw fname content ts none).outcome
          = some (extract_prn_columns_text content)
      ∧ (upload_file store fs praw sraw fname content ts none).store.prns
          = store.prns
            ++ [⟨pyStrip praw, st, disambigName fname ts,
                  pjoin (pjoin (pjoin "uploads"
                    (normalize_product_folder_name (pyStrip praw))) st)
                    (disambigName fname ts), none⟩]
      ∧ r0 ∈ (upload_file store fs praw sraw fname content ts none).store.prns
      ∧ disambigName fname ts ≠ fname
      ∧ fsGet (upload_file store fs praw sraw fname content ts none).fs
            (pjoin (pjoin (pjoin "uploads"
              (normalize_product_folder_name (pyStrip praw))) st) fname) = some c0
      ∧ (∀ q : String,
          q ≠ pjoin (pjoin (pjoin "uploads"
              (normalize_product_folder_name (pyStrip praw))) st) (disambigName fname ts) →
          fsGet (upload_file store fs praw sraw fname content ts none).fs q = fsGet fs q) := by
  intro store fs praw sraw st fname content ts c0 r0 h1 hstage h3 h4 hr0 hf0 h6 h7 h8
  have hpne : pjoin (pjoin (pjoin "uploads"
      (normalize_product_folder_name (pyStrip praw))) st) fname
      ≠ pjoin (pjoin (pjoin "uploads"
      (normalize_product_folder_name (pyStrip praw))) st) (disambigName fname ts) :=
    pjoin_ne_of_ne (fun h => disambigName_ne fname ts h.symm)
  refine ⟨?_, ?_, ?_, ?_, disambigName_ne fname ts, ?_, ?_⟩
  · simp [upload_file, h1, hstage, h3, h4, h6, h7, outcomeFilename]
  · simp [upload_file, h1, hstage, h3, h4, h6, h7, outcomeFields]
  · simp [upload_file, h1, hstage, h3, h4, h6, h7]
  · simp [upload_file, h1, hstage, h3, h4, h6, h7, hr0]
  · simp only [upload_file, h1, hstage, h3, h4, h6, h7]
    simp [h6, h7]
    rw [fsGet_fsSet_ne content hpne fs]
    exact h6
  · intro q hq
    simp only [upload_file, h1, hstage, h3, h4, h6, h7]
    simp [h6, h7]
    rw [fsGet_fsSet_ne content hq fs]

/-- C1 (witness): the amended statement applied at a concrete store with
one artifact `a.prn` and a fresh timestamp. -/
theorem upload_file_collision_renames_witness :
    outcomeFilename (upload_file ⟨["P"], [], [⟨"P", "Raw", "a.prn", "uploads/P/Raw/a.prn", none⟩]⟩
        [("uploads/P/Raw/a.prn", "OLD")] "P" "Raw" "a.prn" "NEW" 5 none).outcome
        = some (disambigName "a.prn" 5)
    ∧ (upload_file ⟨["P"], [], [⟨"P", "Raw", "a.prn", "uploads/P/Raw/a.prn", none⟩]⟩
        [("uploads/P/Raw/a.prn", "OLD")] "P" "Raw" "a.prn" "NEW" 5 none).store.prns
        = [⟨"P", "Raw", "a.prn", "uploads/P/Raw/a.prn", none⟩]
          ++ [⟨pyStrip "P", "Raw", disambigName "a.prn" 5,
                pjoin (pjoin (pjoin "uploads"
                  (normalize_product_folder_name (pyStrip "P"))) "Raw")
                  (disambigName "a.prn" 5), none⟩]
    ∧ fsGet (upload_file ⟨["P"], [], [⟨"P", "Raw", "a.prn", "uploads/P/Raw/a.prn", none⟩]⟩
        [("uploads/P/Raw/a.prn", "OLD")] "P" "Raw" "a.prn" "NEW" 5 none).fs
        (pjoin (pjoin (pjoin "uploads"
          (normalize_product_folder_name (pyStrip "P"))) "Raw") "a.prn") = some "OLD" := by
  have h := upload_file_collision_renames
    ⟨["P"], [], [⟨"P", "Raw", "a.prn", "uploads/P/Raw/a.prn", none⟩]⟩
    [("uploads/P/Raw/a.prn", "OLD")] "P" "Raw" "Raw" "a.prn" "NEW" 5 "OLD"
    ⟨"P", "Raw", "a.prn", "uploads/P/Raw/a.prn", none⟩
    (by decide) (by decide) (by decide) (by decide) (by decide) (by decide)
    (by decide) (by decide) (by decide)
  exact ⟨h.1, h.2.2.1, h.2.2.2.2.2.1⟩

/-- C8 (confirmed): when the preview pipeline fails (error, non-200 status
or timeout — `generate_preview` catches every exception and returns
`False`, so the call never raises into `upload_file`), registration still
succeeds: the artifact row is persisted with its preview path absent, the
returned filename is the collision-safe name, and the pipeline was invoked
exactly once — no retry within the request. -/
theorem upload_file_preview_failure :
    ∀ (store : Store) (fs : FS) (praw sraw st fname content : String) (ts : Nat),
      pyStrip praw ≠ "" →
      stage_folder_name (pyStrip sraw) = some st →
      fname ≠ "" →
      allowed_file fname = true →
      store.prns.any (fun r => prnKey r (pyStrip praw) st fname) = false →
      store.prns.any (fun r => prnKey r (pyStrip praw) st (disambigName fname ts)) = false →
      (outcomeFilename (upload_file store fs praw sraw fname content ts none).outcome
          = some fname
        ∨ outcomeFilename (upload_file store fs praw sraw fname content ts none).outcome
          = some (disambigName fname ts))
      ∧ outcomeFields (upload_file store fs praw sraw fname content ts none).outcome
          = some (extract_prn_columns_text content)
      ∧ (∀ fn : String,
          outcomeFilename (upload_file store fs praw sraw fname content ts none).outcome
            = some fn →
          (upload_file store fs praw sraw fname content ts none).store.prns
            = store.prns
              ++ [⟨pyStrip praw, st, fn,
                    pjoin (pjoin (pjoin "uploads"
                      (normalize_product_folder_name (pyStrip praw))) st) fn, none⟩])
      ∧ (upload_file store fs praw sraw fname content ts none).previewAttempts = 1 := by
  intro store fs praw sraw st fname content ts h1 hstage h3 h4 h5 h6
  by_cases hcol : (fsGet fs (pjoin (pjoin (pjoin "uploads"
      (normalize_product_folder_name (pyStrip praw))) st) fname)).isSome = true
  · refine ⟨Or.inr ?_, ?_, ?_, ?_⟩
    · simp [upload_file, h1, hstage, h3, h4, hcol, h6, outcomeFilename]
    · simp [upload_file, h1, hstage, h3, h4, hcol, h6, outcomeFields]
    · intro fn hfn
      simp [upload_file, h1, hstage, h3, h4, hcol, h6, outcomeFilename] at hfn
      subst hfn
      simp [upload_file, h1, hstage, h3, h4, hcol, h6]
    · simp [upload_file, h1, hstage, h3, h4, hcol, h6]
  · refine ⟨Or.inl ?_, ?_, ?_, ?_⟩
    · simp [upload_file, h1, hstage, h3, h4, hcol, h5, outcomeFilename]
    · simp [upload_file, h1, hstage, h3, h4, hcol, h5, outcomeFields]
    · intro fn hfn
      simp [upload_file, h1, hstage, h3, h4, hcol, h5, outcomeFilename] at hfn
      subst hfn
      simp [upload_file, h1, hstage, h3, h4, hcol, h5]
    · simp [upload_file, h1, hstage, h3, h4, hcol, h5]

/-- C8 (witness): an upload into an empty store with the preview pipeline
failing — registration succeeds, the persisted record has no preview, and
the pipeline was invoked exactly once. -/
theorem upload_file_preview_failure_witness :
    outcomeFilename (upload_file ⟨[], [], []⟩ [] "P" "raw" "a.prn" "x {F} y" 7 none).outcome
        = some "a.prn"
    ∧ (upload_file ⟨[], [], []⟩ [] "P" "raw" "a.prn" "x {F} y" 7 none).store.prns
        = []
          ++ [⟨pyStrip "P", "Raw", "a.prn",
                pjoin (pjoin (pjoin "uploads"
                  (normalize_product_folder_name (pyStrip "P"))) "Raw") "a.prn", none⟩]
    ∧ (upload_file ⟨[], [], []⟩ [] "P" "raw" "a.prn" "x {F} y" 7 none).previewAttempts = 1 := by
  have h := upload_file_preview_failure ⟨[], [], []⟩ [] "P" "raw" "Raw" "a.prn" "x {F} y" 7
    (by decide) (by decide) (by decide) (by decide) (by decide) (by decide)
  exact ⟨by decide, h.2.2.1 "a.prn" (by decide), h.2.2.2⟩

end PrnApp
